import Mathlib

/-!
Shallow embedding of the Clio argument-parsing library (C sources: the
library implementation and its public header).  C strings are modelled as
`List Char`, the shared mutable argument stream as an explicit
`List Str` threaded through the parsing functions, and every
process-terminating path (`err`, the `--help` / `--version` / `help <cmd>`
exits) as an `Except Fatal` error value.  Machine `int` is modelled as `Int`
with the explicit INT_MAX/INT_MIN range checks the C code performs.
Floating-point option values are carried as their raw text: no claim
concerns float coercion, and `try_str_to_double` is therefore not modelled.
-/

namespace Clio

/-- A C string: a list of characters. -/
abbrev Str := List Char

instance {ε α : Type} [DecidableEq ε] [DecidableEq α] : DecidableEq (Except ε α)
  | .ok a, .ok b =>
    if h : a = b then isTrue (congrArg Except.ok h)
    else isFalse (fun hc => h (Except.ok.inj hc))
  | .error a, .error b =>
    if h : a = b then isTrue (congrArg Except.error h)
    else isFalse (fun hc => h (Except.error.inj hc))
  | .ok _, .error _ => isFalse (fun hc => Except.noConfusion hc)
  | .error _, .ok _ => isFalse (fun hc => Except.noConfusion hc)

/-- Convenience: the character list of a Lean string literal. -/
def chars (s : String) : Str := s.data

/-- C `isspace` for the default locale (the characters `strtol` skips). -/
def is_space_c (c : Char) : Bool :=
  c == ' ' || c == '\t' || c == '\n' || c == '\x0b' || c == '\x0c' || c == '\r'

/-- Numeric value of a character as a digit (letters give 10..35), as used
by `strtol` for bases up to 36. -/
def digit_value (c : Char) : Option Nat :=
  if c.isDigit then some (c.toNat - '0'.toNat)
  else if 'a' ≤ c ∧ c ≤ 'z' then some (c.toNat - 'a'.toNat + 10)
  else if 'A' ≤ c ∧ c ≤ 'Z' then some (c.toNat - 'A'.toNat + 10)
  else none

/-- Digit-consumption loop of `strtol`: accumulate digits valid for `base`,
returning the accumulated value, the number of digits consumed and the
remaining characters. -/
def strtol_digits (base : Nat) : Nat → Nat → Str → Nat × Nat × Str
  | acc, count, [] => (acc, count, [])
  | acc, count, c :: t =>
    match digit_value c with
    | some d =>
      if d < base then strtol_digits base (acc * base + d) (count + 1) t
      else (acc, count, c :: t)
    | none => (acc, count, c :: t)

/-- The C `strtol(arg, &endptr, 0)`: skip whitespace, read an optional sign,
detect the base from a `0x`/`0` prefix, consume digits.  Returns the exact
mathematical value (the C code's ERANGE/INT_MAX/INT_MIN checks are applied
by the caller) and the remaining characters (`endptr`).  When no digits are
consumed, no conversion is performed and `endptr` is the original string. -/
def strtol0 (arg : Str) : Int × Str :=
  let s1 := arg.dropWhile is_space_c
  let sgn : Bool × Str :=
    match s1 with
    | '-' :: t => (true, t)
    | '+' :: t => (false, t)
    | _ => (false, s1)
  let bs : Nat × Str :=
    match sgn.2 with
    | '0' :: c :: t =>
      if (c == 'x' || c == 'X') &&
          (match t with
           | d :: _ => decide ((digit_value d).getD 99 < 16)
           | [] => false) then (16, t)
      else (8, '0' :: c :: t)
    | '0' :: [] => (8, ['0'])
    | _ => (10, sgn.2)
  let r := strtol_digits bs.1 0 0 bs.2
  if r.2.1 = 0 then (0, arg)
  else ((if sgn.1 then -(r.1 : Int) else (r.1 : Int)), r.2.2)

/-- Every process-terminating outcome of the library: the fatal diagnostics
printed by `err` (exit status 1) and the help/version print-and-exit paths
(exit status 0).  Each constructor records the data interpolated into the
corresponding C message. -/
inductive Fatal : Type where
  | outOfRange (arg : Str)
  | invalidFormat (arg : Str)
  | notRecognisedOption (pre : Str) (name : Str)
  | invalidFlagFormat (pre : Str) (name : Str)
  | missingArgument (pre : Str) (name : Str)
  | notRecognisedCommand (name : Str)
  | helpRequiresArgument
  | notRegistered (name : Str)
  | helpExit (text : Str)
  | versionExit (text : Str)
  | helpCmdExit (text : Option Str)
deriving DecidableEq

/-- Process exit status of each terminating outcome: help/version exits
report 0, every `err` diagnostic reports 1. -/
def Fatal.exitCode : Fatal → Nat
  | .helpExit _ => 0
  | .versionExit _ => 0
  | .helpCmdExit _ => 0
  | _ => 1

/-- The C `try_str_to_int`: parse with `strtol` base 0, fail with the
out-of-range diagnostic when the value exceeds the `int` range (this also
covers `errno == ERANGE`, since `long` overflow forces the clamped result
past the `int` bounds), then fail with the cannot-parse diagnostic when
characters remain after the numeric token. -/
def try_str_to_int (arg : Str) : Except Fatal Int :=
  let r := strtol0 arg
  if 2147483647 < r.1 ∨ r.1 < -2147483648 then .error (.outOfRange arg)
  else if r.2 ≠ [] then .error (.invalidFormat arg)
  else .ok r.1

/-- The four option kinds of the C `OptionType` enum. -/
inductive OptionType : Type where
  | FLAG
  | STRING
  | INTEGER
  | FLOAT
deriving DecidableEq

/-- The C `OptionValue` union, as a sum.  `float_val` carries the raw text
of the value (see the module comment). -/
inductive OptionValue : Type where
  | bool_val (b : Bool)
  | str_val (s : Str)
  | int_val (n : Int)
  | float_val (raw : Str)
deriving DecidableEq

/-- The C `Option` struct (`len`/`cap` collapse into the list). -/
structure Opt : Type where
  type : OptionType
  found : Bool
  greedy : Bool
  values : List OptionValue
deriving DecidableEq

instance : Inhabited Opt := ⟨⟨.STRING, false, false, []⟩⟩

/-- The C `option_clear`: empty the internal value list. -/
def option_clear (opt : Opt) : Opt := { opt with values := [] }

/-- The C `option_append`: push a value onto the internal value list. -/
def option_append (opt : Opt) (v : OptionValue) : Opt :=
  { opt with values := opt.values ++ [v] }

/-- The C `option_set_flag`. -/
def option_set_flag (opt : Opt) (b : Bool) : Opt :=
  option_append opt (.bool_val b)

/-- The C `option_set_str`. -/
def option_set_str (opt : Opt) (s : Str) : Opt :=
  option_append opt (.str_val s)

/-- The C `option_set_int`. -/
def option_set_int (opt : Opt) (n : Int) : Opt :=
  option_append opt (.int_val n)

/-- The C `option_set_float` (raw text, see module comment). -/
def option_set_float (opt : Opt) (raw : Str) : Opt :=
  option_append opt (.float_val raw)

/-- The C `option_try_set`: coerce a raw argument according to the option's type
and append it; integer coercion can exit fatally.  A FLAG option matches no
branch in the C code and is left unchanged. -/
def option_try_set (opt : Opt) (arg : Str) : Except Fatal Opt :=
  match opt.type with
  | .STRING => .ok (option_set_str opt arg)
  | .INTEGER =>
    match try_str_to_int arg with
    | .error e => .error e
    | .ok n => .ok (option_set_int opt n)
  | .FLOAT => .ok (option_set_float opt arg)
  | .FLAG => .ok opt

/-- The C `option_new`: fresh option with no values; the C code leaves `type` to
be assigned by the specific constructor, modelled by passing it in. -/
def option_new (t : OptionType) : Opt :=
  { type := t, found := false, greedy := false, values := [] }

/-- The C `option_new_flag`: boolean scalar, default `false` at index 0. -/
def option_new_flag : Opt := option_set_flag (option_new .FLAG) false

/-- The C `option_new_str`: string scalar with its default at index 0. -/
def option_new_str (value : Str) : Opt := option_set_str (option_new .STRING) value

/-- The C `option_new_int`: integer scalar with its default at index 0. -/
def option_new_int (value : Int) : Opt := option_set_int (option_new .INTEGER) value

/-- The C `option_new_float`: float scalar with its default (raw text) at index 0. -/
def option_new_float (value : Str) : Opt := option_set_float (option_new .FLOAT) value

/-- The C `option_new_flag_list`: boolean list, starts empty. -/
def option_new_flag_list : Opt := option_new .FLAG

/-- The C `option_new_str_list`. -/
def option_new_str_list (greedy : Bool) : Opt := { option_new .STRING with greedy := greedy }

/-- The C `option_new_int_list`. -/
def option_new_int_list (greedy : Bool) : Opt := { option_new .INTEGER with greedy := greedy }

/-- The C `option_new_float_list`. -/
def option_new_float_list (greedy : Bool) : Opt := { option_new .FLOAT with greedy := greedy }

/-- The C `option_get_flag` reads `values[len-1].bool_val`; reading an empty list
or a non-boolean payload is undefined in C and modelled as `none`. -/
def option_get_flag (opt : Opt) : Option Bool :=
  match opt.values.getLast? with
  | some (.bool_val b) => some b
  | _ => none

/-- The C `option_get_str` reads `values[len-1].str_val` (see `option_get_flag`). -/
def option_get_str (opt : Opt) : Option Str :=
  match opt.values.getLast? with
  | some (.str_val s) => some s
  | _ => none

/-- The C `option_get_int` reads `values[len-1].int_val` (see `option_get_flag`). -/
def option_get_int (opt : Opt) : Option Int :=
  match opt.values.getLast? with
  | some (.int_val n) => some n
  | _ => none

/-- The C `strtok_r(keystr, " ", ...)` loop of `map_add_splitkey`: the
whitespace-separated words of a key string. -/
def splitkeys_aux : Str → Str → List Str
  | [], cur => if cur = [] then [] else [cur.reverse]
  | c :: t, cur =>
    if c = ' ' then
      if cur = [] then splitkeys_aux t [] else cur.reverse :: splitkeys_aux t []
    else splitkeys_aux t (c :: cur)

/-- Split a registration key string into its space-separated keys. -/
def splitkeys (s : Str) : List Str := splitkeys_aux s []

/-- The C `map_get` / `map_contains` over the key table: linear scan from index 0,
first matching key wins.  Values live in a side arena (see `ArgParser`), so
the table maps each key to an arena index; several alias keys may map to
the same index, mirroring the C map's shared value pointers. -/
def map_get_idx : List (Str × Nat) → Str → Option Nat
  | [], _ => none
  | (k, v) :: t, key => if k = key then some v else map_get_idx t key

/-- The value-shape test of `argstream_has_next_value` applied to a single
token: a token can be consumed as an option's value unless it begins with
`-`, is longer than one character and its second character is not a digit. -/
def value_shaped (t : Str) : Bool :=
  match t with
  | '-' :: rest =>
    match rest with
    | [] => true
    | c :: _ => c.isDigit
  | _ => true

/-- The C `argstream_has_next_value`: the stream has a next token and that token
is value-shaped. -/
def argstream_has_next_value (s : List Str) : Bool :=
  match s with
  | [] => false
  | next :: _ => value_shaped next

/-- The C `ArgParser` struct.  The option map becomes a key table plus an
arena (`opts`) so alias keys share one mutable option, and likewise for
commands (`cmds`).  `cmd_index` models the `cmd_parser` pointer as an index
into `cmds`.  The `parent` back-pointer and the command callback table are
not modelled: the former is a non-owning upward reference never used by
parsing, and a callback is an arbitrary external effect that does not
change the parsing state modelled here. -/
inductive ArgParser : Type where
  | mk (helptext : Option Str) (version : Option Str)
       (optKeys : List (Str × Nat)) (opts : List Opt)
       (cmdKeys : List (Str × Nat)) (cmds : List ArgParser)
       (arguments : List Str)
       (cmd_name : Option Str) (cmd_index : Option Nat) : ArgParser

/-- Help text of a parser. -/
def ArgParser.helptext : ArgParser → Option Str
  | .mk h _ _ _ _ _ _ _ _ => h

/-- Version text of a parser. -/
def ArgParser.version : ArgParser → Option Str
  | .mk _ v _ _ _ _ _ _ _ => v

/-- Option key table of a parser. -/
def ArgParser.optKeys : ArgParser → List (Str × Nat)
  | .mk _ _ k _ _ _ _ _ _ => k

/-- Option arena of a parser. -/
def ArgParser.opts : ArgParser → List Opt
  | .mk _ _ _ o _ _ _ _ _ => o

/-- Command key table of a parser. -/
def ArgParser.cmdKeys : ArgParser → List (Str × Nat)
  | .mk _ _ _ _ k _ _ _ _ => k

/-- Command arena of a parser. -/
def ArgParser.cmds : ArgParser → List ArgParser
  | .mk _ _ _ _ _ c _ _ _ => c

/-- Positional-argument list of a parser. -/
def ArgParser.arguments : ArgParser → List Str
  | .mk _ _ _ _ _ _ a _ _ => a

/-- Matched command name (`cmd_name`), if any. -/
def ArgParser.cmd_name : ArgParser → Option Str
  | .mk _ _ _ _ _ _ _ n _ => n

/-- Matched command arena index (`cmd_parser`), if any. -/
def ArgParser.cmd_index : ArgParser → Option Nat
  | .mk _ _ _ _ _ _ _ _ i => i

/-- The C `argparser_new`: fresh parser with the given help/version text. -/
def argparser_new (helptext version : Option Str) : ArgParser :=
  .mk helptext version [] [] [] [] [] none none

instance : Inhabited ArgParser := ⟨argparser_new none none⟩

/-- The registered option at arena index `i`, if the index is valid. -/
def optAt (p : ArgParser) (i : Nat) : Option Opt := p.opts[i]?

/-- The registered option at arena index `i`; indices produced by
`map_get_idx` on a registered key are always valid, so the default is
never read on reachable states. -/
def getOptD (p : ArgParser) (i : Nat) : Opt := (optAt p i).getD default

/-- The command parser at arena index `i` (same validity remark). -/
def getCmdD (p : ArgParser) (i : Nat) : ArgParser :=
  (p.cmds[i]?).getD (argparser_new none none)

/-- Overwrite the option at arena index `i` (a store through the C map's
shared `Option*` pointer). -/
def argparser_write_opt (p : ArgParser) (i : Nat) (o : Opt) : ArgParser :=
  match p with
  | .mk h v ok os ck cs a n ci => .mk h v ok (os.set i o) ck cs a n ci

/-- Overwrite the command parser at arena index `i`. -/
def argparser_write_cmd (p : ArgParser) (i : Nat) (c : ArgParser) : ArgParser :=
  match p with
  | .mk h v ok os ck cs a n ci => .mk h v ok os ck (cs.set i c) a n ci

/-- The C `arglist_append` on the parser's positional list. -/
def argparser_append_arg (p : ArgParser) (arg : Str) : ArgParser :=
  match p with
  | .mk h v ok os ck cs a n ci => .mk h v ok os ck cs (a ++ [arg]) n ci

/-- Record the matched command (`parser->cmd_name` / `parser->cmd_parser`). -/
def argparser_set_cmd (p : ArgParser) (name : Str) (i : Nat) : ArgParser :=
  match p with
  | .mk h v ok os ck cs a _ _ => .mk h v ok os ck cs a (some name) (some i)

/-- The C `map_add_splitkey` on the option map: append the new option to the
arena and bind every space-separated key to its index. -/
def argparser_register_opt (p : ArgParser) (name : Str) (opt : Opt) : ArgParser :=
  match p with
  | .mk h v ok os ck cs a n ci =>
    .mk h v (ok ++ (splitkeys name).map (fun k => (k, os.length))) (os ++ [opt]) ck cs a n ci

/-- The C `argparser_add_flag`. -/
def argparser_add_flag (p : ArgParser) (name : Str) : ArgParser :=
  argparser_register_opt p name option_new_flag

/-- The C `argparser_add_str`. -/
def argparser_add_str (p : ArgParser) (name : Str) (value : Str) : ArgParser :=
  argparser_register_opt p name (option_new_str value)

/-- The C `argparser_add_int`. -/
def argparser_add_int (p : ArgParser) (name : Str) (value : Int) : ArgParser :=
  argparser_register_opt p name (option_new_int value)

/-- The C `argparser_add_flag_list`. -/
def argparser_add_flag_list (p : ArgParser) (name : Str) : ArgParser :=
  argparser_register_opt p name option_new_flag_list

/-- The C `argparser_add_str_list`. -/
def argparser_add_str_list (p : ArgParser) (name : Str) (greedy : Bool) : ArgParser :=
  argparser_register_opt p name (option_new_str_list greedy)

/-- The C `argparser_add_int_list`. -/
def argparser_add_int_list (p : ArgParser) (name : Str) (greedy : Bool) : ArgParser :=
  argparser_register_opt p name (option_new_int_list greedy)

/-- The C `argparser_add_cmd`: attach a fresh child parser under every
space-separated key (callbacks are not modelled, see `ArgParser`); returns
the parent together with the child's arena index, through which the
caller registers the command's own options (`argparser_update_cmd`). -/
def argparser_add_cmd (p : ArgParser) (name : Str) (helptext : Option Str) :
    ArgParser × Nat :=
  match p with
  | .mk h v ok os ck cs a n ci =>
    (.mk h v ok os (ck ++ (splitkeys name).map (fun k => (k, cs.length)))
       (cs ++ [argparser_new helptext none]) a n ci, cs.length)

/-- Registration through the child-parser pointer returned by
`argparser_add_cmd`: apply a registration function to the child in place. -/
def argparser_update_cmd (p : ArgParser) (i : Nat) (f : ArgParser → ArgParser) : ArgParser :=
  argparser_write_cmd p i (f (getCmdD p i))

/-- The C `strstr(arg, "=") != NULL`: does the token contain an equals sign. -/
def has_equals (s : Str) : Bool := s.any (fun c => c == '=')

/-- The name/value split of `argparser_parse_equals_option`: `name` is
everything before the first `=` (`*strchr(name,'=') = 0`), `value` is
everything after it (`strchr(arg,'=') + 1`).  Only called when the token
contains `=`; the `[]` case is unreachable. -/
def split_at_equals : Str → Str × Str
  | [] => ([], [])
  | c :: t =>
    if c = '=' then ([], t)
    else
      let r := split_at_equals t
      (c :: r.1, r.2)

/-- The C `argparser_parse_equals_option`: handle `--name=value` / `-n=value`.
Looks the name up, marks it found, rejects flags and empty values, then
coerces and appends the embedded value.  The token stream is not touched
(the C function does not even receive it). -/
def argparser_parse_equals_option (p : ArgParser) (pre : Str) (arg : Str) :
    Except Fatal ArgParser :=
  match map_get_idx p.optKeys (split_at_equals arg).1 with
  | none => .error (.notRecognisedOption pre (split_at_equals arg).1)
  | some i =>
    if (getOptD p i).type = OptionType.FLAG then
      .error (.invalidFlagFormat pre (split_at_equals arg).1)
    else if (split_at_equals arg).2 = [] then
      .error (.missingArgument pre (split_at_equals arg).1)
    else
      match option_try_set { getOptD p i with found := true } (split_at_equals arg).2 with
      | .error e => .error e
      | .ok opt' => .ok (argparser_write_opt p i opt')

/-- The greedy-consumption loop (`while (argstream_has_next_value(stream))`):
keep coercing and appending stream tokens while the next one is
value-shaped. -/
def greedy_consume : Opt → List Str → Except Fatal (Opt × List Str)
  | opt, [] => .ok (opt, [])
  | opt, v :: rest =>
    if argstream_has_next_value (v :: rest) then
      match option_try_set opt v with
      | .error e => .error e
      | .ok opt' => greedy_consume opt' rest
    else .ok (opt, v :: rest)

/-- The C `argparser_parse_long_option` (the `--` prefix already stripped):
equals form, else registered option (flag append / value consumption with
optional greedy loop / missing-argument error), else the automatic
`--help` and `--version` exits, else unrecognised-option error.  Returns
the updated parser and the remaining stream. -/
def argparser_parse_long_option (p : ArgParser) (arg : Str) (stream : List Str) :
    Except Fatal (ArgParser × List Str) :=
  if has_equals arg then
    match argparser_parse_equals_option p ['-', '-'] arg with
    | .error e => .error e
    | .ok p' => .ok (p', stream)
  else
    match map_get_idx p.optKeys arg with
    | some i =>
      if (getOptD p i).type = OptionType.FLAG then
        .ok (argparser_write_opt p i
          (option_set_flag { getOptD p i with found := true } true), stream)
      else
        match stream with
        | v :: rest =>
          if argstream_has_next_value (v :: rest) then
            match option_try_set { getOptD p i with found := true } v with
            | .error e => .error e
            | .ok opt' =>
              if opt'.greedy then
                match greedy_consume opt' rest with
                | .error e => .error e
                | .ok (opt'', rest') => .ok (argparser_write_opt p i opt'', rest')
              else .ok (argparser_write_opt p i opt', rest)
          else .error (.missingArgument ['-', '-'] arg)
        | [] => .error (.missingArgument ['-', '-'] arg)
    | none =>
      if arg = chars "help" ∧ p.helptext.isSome then
        .error (.helpExit (p.helptext.getD []))
      else if arg = chars "version" ∧ p.version.isSome then
        .error (.versionExit (p.version.getD []))
      else .error (.notRecognisedOption ['-', '-'] arg)

/-- The per-character loop of `argparser_parse_short_option`: each
character of the bundle is an independent single-letter option name; a
flag appends `true`, a non-flag consumes the next value-shaped stream
token (with the same greedy loop as the long form), and in both cases the
loop continues with the remaining characters. -/
def argparser_parse_short_chars (p : ArgParser) : Str → List Str →
    Except Fatal (ArgParser × List Str)
  | [], stream => .ok (p, stream)
  | c :: cs, stream =>
    match map_get_idx p.optKeys [c] with
    | none => .error (.notRecognisedOption ['-'] [c])
    | some i =>
      if (getOptD p i).type = OptionType.FLAG then
        argparser_parse_short_chars
          (argparser_write_opt p i
            (option_set_flag { getOptD p i with found := true } true)) cs stream
      else
        match stream with
        | v :: rest =>
          if argstream_has_next_value (v :: rest) then
            match option_try_set { getOptD p i with found := true } v with
            | .error e => .error e
            | .ok opt' =>
              if opt'.greedy then
                match greedy_consume opt' rest with
                | .error e => .error e
                | .ok (opt'', rest') =>
                  argparser_parse_short_chars (argparser_write_opt p i opt'') cs rest'
              else argparser_parse_short_chars (argparser_write_opt p i opt') cs rest
          else .error (.missingArgument ['-'] [c])
        | [] => .error (.missingArgument ['-'] [c])

/-- The C `argparser_parse_short_option` (single `-` prefix stripped): the
equals form if the token contains `=`, otherwise the per-character loop. -/
def argparser_parse_short_option (p : ArgParser) (arg : Str) (stream : List Str) :
    Except Fatal (ArgParser × List Str) :=
  if has_equals arg then
    match argparser_parse_equals_option p ['-'] arg with
    | .error e => .error e
    | .ok p' => .ok (p', stream)
  else argparser_parse_short_chars p arg stream

/-- The C `argparser_parse_stream`: the main loop, with the shared mutable
stream threaded explicitly and the loop reified as recursion on a fuel
that the wrapper sets to the stream length (every iteration consumes at
least one token, so the fuel-0 case is unreachable from the wrapper).
Branches in C order: parsing-disabled append, the `--` terminator, long
options, short options (with the bare `-` / `-<digit>` positional case),
registered commands (the recursive call returns only once it has drained
the stream, after which the parent loop continues on what is left), the
automatic `help` command, and the positional catch-all. -/
def argparser_parse_stream : Nat → ArgParser → Bool → List Str →
    Except Fatal (ArgParser × List Str)
  | 0, p, _, stream => .ok (p, stream)
  | fuel + 1, p, parsing, stream =>
    match stream with
    | [] => .ok (p, [])
    | arg :: rest =>
    if parsing = false then
      argparser_parse_stream fuel (argparser_append_arg p arg) parsing rest
    else if arg = ['-', '-'] then
      argparser_parse_stream fuel p false rest
    else if arg.take 2 = ['-', '-'] then
      match argparser_parse_long_option p (arg.drop 2) rest with
      | .error e => .error e
      | .ok (p', rest') => argparser_parse_stream fuel p' true rest'
    else if arg.headD '\x00' = '-' then
      if arg.length = 1 ∨ (arg.getD 1 '\x00').isDigit = true then
        argparser_parse_stream fuel (argparser_append_arg p arg) true rest
      else
        match argparser_parse_short_option p (arg.drop 1) rest with
        | .error e => .error e
        | .ok (p', rest') => argparser_parse_stream fuel p' true rest'
    else
      match map_get_idx p.cmdKeys arg with
      | some i =>
        match argparser_parse_stream fuel (getCmdD p i) true rest with
        | .error e => .error e
        | .ok (child', rest') =>
          argparser_parse_stream fuel
            (argparser_set_cmd (argparser_write_cmd p i child') arg i) true rest'
      | none =>
        if arg = chars "help" then
          match rest with
          | name :: _ =>
            match map_get_idx p.cmdKeys name with
            | some j => .error (.helpCmdExit (getCmdD p j).helptext)
            | none => .error (.notRecognisedCommand name)
          | [] => .error .helpRequiresArgument
        else argparser_parse_stream fuel (argparser_append_arg p arg) true rest

/-- The C `argparser_parse` / `ap_parse`: run the stream loop over the argument
tokens (the caller already dropped `argv[0]`); the loop drains the stream,
so only the parser is returned. -/
def argparser_parse (p : ArgParser) (args : List Str) : Except Fatal ArgParser :=
  match argparser_parse_stream args.length p true args with
  | .error e => .error e
  | .ok (p', _) => .ok p'

/-- The C `argparser_get_opt`-based lookup of an option's full value list
(`none` models the "not a registered option" abort). -/
def argparser_opt_values (p : ArgParser) (name : Str) : Option (List OptionValue) :=
  (map_get_idx p.optKeys name).map (fun i => (getOptD p i).values)

/-- The C `argparser_found`. -/
def argparser_found (p : ArgParser) (name : Str) : Option Bool :=
  (map_get_idx p.optKeys name).map (fun i => (getOptD p i).found)

/-- The C `argparser_get_flag`. -/
def argparser_get_flag (p : ArgParser) (name : Str) : Option Bool :=
  (map_get_idx p.optKeys name).bind (fun i => option_get_flag (getOptD p i))

/-- The C `argparser_get_str`. -/
def argparser_get_str (p : ArgParser) (name : Str) : Option Str :=
  (map_get_idx p.optKeys name).bind (fun i => option_get_str (getOptD p i))

/-- The C `argparser_get_int`. -/
def argparser_get_int (p : ArgParser) (name : Str) : Option Int :=
  (map_get_idx p.optKeys name).bind (fun i => option_get_int (getOptD p i))

/-- The C `argparser_clear_list` / `ap_clear_list`: clear the named option's
value list (the error models the "not a registered option" abort). -/
def argparser_clear_list (p : ArgParser) (name : Str) : Except Fatal ArgParser :=
  match map_get_idx p.optKeys name with
  | none => .error (.notRegistered name)
  | some i => .ok (argparser_write_opt p i (option_clear (getOptD p i)))

/-- The C `argparser_has_cmd`. -/
def argparser_has_cmd (p : ArgParser) : Bool := p.cmd_name.isSome

/-- The C `argparser_get_cmd_name`. -/
def argparser_get_cmd_name (p : ArgParser) : Option Str := p.cmd_name

/-- The C `argparser_get_cmd_parser` (the matched command's own parser). -/
def argparser_get_cmd_node (p : ArgParser) : Option ArgParser :=
  p.cmd_index.map (getCmdD p)

/-- The loop of `argparser_get_args_as_ints`: coerce each positional
argument in order, exiting on the first failure. -/
def map_try_str_to_int : List Str → Except Fatal (List Int)
  | [] => .ok []
  | a :: t =>
    match try_str_to_int a with
    | .error e => .error e
    | .ok n =>
      match map_try_str_to_int t with
      | .error e => .error e
      | .ok ns => .ok (n :: ns)

/-- The C `argparser_get_args_as_ints` / `ap_get_args_as_ints`. -/
def argparser_get_args_as_ints (p : ArgParser) : Except Fatal (List Int) :=
  map_try_str_to_int p.arguments

/-- The public operations that mutate a single registered option's state
(`ap_set_*`, parsing's `option_try_set`, and `ap_clear_list`); a failing
`trySet` terminates the process in C, so its state is modelled unchanged. -/
inductive OptionOp : Type where
  | setFlag (b : Bool)
  | setStr (v : Str)
  | setInt (n : Int)
  | setFloat (raw : Str)
  | trySet (arg : Str)
  | clear
deriving DecidableEq

/-- Apply one public mutating operation to an option. -/
def option_apply (o : Opt) : OptionOp → Opt
  | .setFlag b => option_set_flag o b
  | .setStr v => option_set_str o v
  | .setInt n => option_set_int o n
  | .setFloat r => option_set_float o r
  | .trySet a =>
    match option_try_set o a with
    | .ok o' => o'
    | .error _ => o
  | .clear => option_clear o

/-- Apply a sequence of public mutating operations in order. -/
def option_apply_list (o : Opt) (ops : List OptionOp) : Opt :=
  ops.foldl option_apply o

/-- Value-extension relation between option arenas: every registered
option's value list in the first arena is a prefix of its value list in
the second (so parsing only appends). -/
@[reducible] def opts_extend (os os' : List Opt) : Prop :=
  ∀ (i : Nat) (o : Opt), os[i]? = some o →
    ∃ o' : Opt, os'[i]? = some o' ∧ ∃ ext : List OptionValue, o'.values = o.values ++ ext

/-- Concrete parser for the C1 scenario: `a` a string scalar (default
`d`), `b` a flag. -/
def c1p : ArgParser :=
  argparser_add_flag
    (argparser_add_str (argparser_new none none) (chars "a") (chars "d")) (chars "b")

/-- Concrete parser for the C2 scenario: a root with a `push` command
whose own parser registers the flag `force`. -/
def c2p : ArgParser :=
  let r := argparser_add_cmd (argparser_new none none) (chars "push") (some (chars "usage: push"))
  argparser_update_cmd r.1 r.2 (fun c => argparser_add_flag c (chars "force"))

/-- Concrete parser for the C3 scenario: a greedy string-list option
`tags`. -/
def c3p : ArgParser :=
  argparser_add_str_list (argparser_new none none) (chars "tags") true

/-- Concrete parser for the C4 counterexample: a string scalar `s` with
default `d`. -/
def c4p : ArgParser :=
  argparser_add_str (argparser_new none none) (chars "s") (chars "d")

/-- Concrete parser for the C6 scenario: flags `a` and `b`, string scalar
`c` (default `z`). -/
def c6p : ArgParser :=
  argparser_add_str
    (argparser_add_flag (argparser_add_flag (argparser_new none none) (chars "a")) (chars "b"))
    (chars "c") (chars "z")

/-- Concrete parser for the C9 counterexample: a string scalar `s` with
default `d`. -/
def c9p : ArgParser :=
  argparser_add_str (argparser_new none none) (chars "s") (chars "d")

/-! Helper lemmas. -/

@[simp] lemma opts_write_opt (p : ArgParser) (i : Nat) (o : Opt) :
    (argparser_write_opt p i o).opts = p.opts.set i o := by
  cases p
  rfl

@[simp] lemma optKeys_write_opt (p : ArgParser) (i : Nat) (o : Opt) :
    (argparser_write_opt p i o).optKeys = p.optKeys := by
  cases p
  rfl

@[simp] lemma opts_append_arg (p : ArgParser) (a : Str) :
    (argparser_append_arg p a).opts = p.opts := by
  cases p
  rfl

@[simp] lemma optKeys_append_arg (p : ArgParser) (a : Str) :
    (argparser_append_arg p a).optKeys = p.optKeys := by
  cases p
  rfl

@[simp] lemma arguments_append_arg (p : ArgParser) (a : Str) :
    (argparser_append_arg p a).arguments = p.arguments ++ [a] := by
  cases p
  rfl

@[simp] lemma opts_write_cmd (p : ArgParser) (i : Nat) (c : ArgParser) :
    (argparser_write_cmd p i c).opts = p.opts := by
  cases p
  rfl

@[simp] lemma opts_set_cmd (p : ArgParser) (n : Str) (i : Nat) :
    (argparser_set_cmd p n i).opts = p.opts := by
  cases p
  rfl

lemma optAt_eq (p : ArgParser) (i : Nat) : optAt p i = p.opts[i]? := rfl

lemma opts_extend_refl (os : List Opt) : opts_extend os os := by
  intro i o h
  exact ⟨o, h, [], by simp⟩

lemma opts_extend_trans {os1 os2 os3 : List Opt}
    (h1 : opts_extend os1 os2) (h2 : opts_extend os2 os3) : opts_extend os1 os3 := by
  intro i o h
  obtain ⟨o2, h2a, e1, he1⟩ := h1 i o h
  obtain ⟨o3, h3a, e2, he2⟩ := h2 i o2 h2a
  exact ⟨o3, h3a, e1 ++ e2, by rw [he2, he1, List.append_assoc]⟩

lemma opts_extend_write (p : ArgParser) (i : Nat) (o' : Opt)
    (h : ∀ o, optAt p i = some o → ∃ ext, o'.values = o.values ++ ext) :
    opts_extend p.opts (argparser_write_opt p i o').opts := by
  intro j oj hj
  rw [opts_write_opt]
  by_cases hji : j = i
  · subst hji
    have hlt : j < p.opts.length := by
      by_contra hge
      rw [List.getElem?_eq_none (Nat.le_of_not_lt hge)] at hj
      cases hj
    refine ⟨o', ?_, ?_⟩
    · rw [List.getElem?_set_eq_of_lt _ hlt]
    · exact h oj hj
  · exact ⟨oj, by rw [List.getElem?_set_ne (fun he => hji he.symm)]; exact hj, [], by simp⟩

lemma has_equals_append_eq (name v : Str) : has_equals (name ++ '=' :: v) = true := by
  simp [has_equals]

lemma split_at_equals_append (name v : Str) (h : has_equals name = false) :
    split_at_equals (name ++ '=' :: v) = (name, v) := by
  induction name with
  | nil => simp [split_at_equals]
  | cons c t ih =>
    simp only [has_equals, List.any_cons, Bool.or_eq_false_iff, beq_eq_false_iff_ne] at h
    have ih' := ih (by simp only [has_equals]; exact h.2)
    simp only [List.cons_append, split_at_equals, if_neg h.1, List.append_eq, ih']

lemma option_try_set_ok (o : Opt) (a : Str) (o' : Opt)
    (h : option_try_set o a = .ok o') :
    o'.type = o.type ∧ o'.greedy = o.greedy ∧ o'.found = o.found ∧
      ∃ ext, o'.values = o.values ++ ext ∧
        (o.type ≠ OptionType.FLAG → ∃ w, ext = [w]) := by
  unfold option_try_set at h
  cases ht : o.type <;> rw [ht] at h
  case FLAG =>
    cases h
    exact ⟨ht, rfl, rfl, [], by simp, fun hne => absurd rfl hne⟩
  case STRING =>
    cases h
    exact ⟨ht, rfl, rfl, [.str_val a], rfl, fun _ => ⟨_, rfl⟩⟩
  case INTEGER =>
    cases hi : try_str_to_int a <;> rw [hi] at h
    · cases h
    · cases h
      exact ⟨ht, rfl, rfl, [.int_val _], rfl, fun _ => ⟨_, rfl⟩⟩
  case FLOAT =>
    cases h
    exact ⟨ht, rfl, rfl, [.float_val a], rfl, fun _ => ⟨_, rfl⟩⟩

lemma greedy_consume_ok : ∀ (s : List Str) (o o' : Opt) (s' : List Str),
    greedy_consume o s = .ok (o', s') →
    s'.length ≤ s.length ∧ ∃ ext, o'.values = o.values ++ ext := by
  intro s
  induction s with
  | nil =>
    intro o o' s' h
    cases h
    exact ⟨Nat.le_refl _, [], by simp⟩
  | cons v rest ih =>
    intro o o' s' h
    unfold greedy_consume at h
    split at h
    · cases hts : option_try_set o v <;> rw [hts] at h
      · cases h
      · obtain ⟨hle, ext1, he1⟩ := ih _ o' s' h
        obtain ⟨-, -, -, ext0, he0, -⟩ := option_try_set_ok _ _ _ hts
        exact ⟨Nat.le_succ_of_le hle, ext0 ++ ext1, by rw [he1, he0, List.append_assoc]⟩
    · cases h
      exact ⟨Nat.le_refl _, [], by simp⟩

lemma parse_stream_nil (fuel : Nat) (p : ArgParser) (parsing : Bool) :
    argparser_parse_stream (fuel + 1) p parsing [] = .ok (p, []) := rfl

lemma parse_stream_cons (fuel : Nat) (p : ArgParser) (parsing : Bool)
    (arg : Str) (rest : List Str) :
    argparser_parse_stream (fuel + 1) p parsing (arg :: rest) =
      (if parsing = false then
        argparser_parse_stream fuel (argparser_append_arg p arg) parsing rest
      else if arg = ['-', '-'] then
        argparser_parse_stream fuel p false rest
      else if arg.take 2 = ['-', '-'] then
        match argparser_parse_long_option p (arg.drop 2) rest with
        | .error e => .error e
        | .ok (p', rest') => argparser_parse_stream fuel p' true rest'
      else if arg.headD '\x00' = '-' then
        if arg.length = 1 ∨ (arg.getD 1 '\x00').isDigit = true then
          argparser_parse_stream fuel (argparser_append_arg p arg) true rest
        else
          match argparser_parse_short_option p (arg.drop 1) rest with
          | .error e => .error e
          | .ok (p', rest') => argparser_parse_stream fuel p' true rest'
      else
        match map_get_idx p.cmdKeys arg with
        | some i =>
          match argparser_parse_stream fuel (getCmdD p i) true rest with
          | .error e => .error e
          | .ok (child', rest') =>
            argparser_parse_stream fuel
              (argparser_set_cmd (argparser_write_cmd p i child') arg i) true rest'
        | none =>
          if arg = chars "help" then
            match rest with
            | name :: _ =>
              match map_get_idx p.cmdKeys name with
              | some j => .error (.helpCmdExit (getCmdD p j).helptext)
              | none => .error (.notRecognisedCommand name)
            | [] => .error .helpRequiresArgument
          else argparser_parse_stream fuel (argparser_append_arg p arg) true rest) := rfl

lemma getOptD_of_optAt {p : ArgParser} {i : Nat} {o : Opt} (h : optAt p i = some o) :
    getOptD p i = o := by
  unfold getOptD
  rw [h]
  rfl

lemma parse_equals_ok (p : ArgParser) (pre arg : Str) (p' : ArgParser)
    (h : argparser_parse_equals_option p pre arg = .ok p') :
    opts_extend p.opts p'.opts := by
  unfold argparser_parse_equals_option at h
  split at h
  · cases h
  · rename_i i hm
    split at h
    · cases h
    · split at h
      · cases h
      · split at h
        · cases h
        · rename_i opt' hts
          cases h
          refine opts_extend_write p i opt' (fun o ho => ?_)
          obtain ⟨-, -, -, ext, he, -⟩ := option_try_set_ok _ _ _ hts
          rw [getOptD_of_optAt ho] at he
          exact ⟨ext, he⟩

lemma parse_long_ok (p : ArgParser) (arg : Str) (stream : List Str)
    (p' : ArgParser) (s' : List Str)
    (h : argparser_parse_long_option p arg stream = .ok (p', s')) :
    s'.length ≤ stream.length ∧ opts_extend p.opts p'.opts := by
  unfold argparser_parse_long_option at h
  split at h
  · split at h
    · cases h
    · rename_i q hq
      cases h
      exact ⟨Nat.le_refl _, parse_equals_ok _ _ _ _ hq⟩
  · split at h
    · rename_i i hm
      split at h
      · cases h
        refine ⟨Nat.le_refl _, opts_extend_write p i _ (fun o ho => ?_)⟩
        rw [getOptD_of_optAt ho]
        exact ⟨[.bool_val true], rfl⟩
      · split at h
        · rename_i v rest
          split at h
          · split at h
            · cases h
            · rename_i opt' hts
              split at h
              · split at h
                · cases h
                · rename_i opt'' rest' hg
                  cases h
                  obtain ⟨hlen, ext1, he1⟩ := greedy_consume_ok _ _ _ _ hg
                  obtain ⟨-, -, -, ext0, he0, -⟩ := option_try_set_ok _ _ _ hts
                  refine ⟨Nat.le_succ_of_le hlen,
                    opts_extend_write p i opt'' (fun o ho => ?_)⟩
                  rw [he1, he0, getOptD_of_optAt ho, List.append_assoc]
                  exact ⟨_, rfl⟩
              · cases h
                obtain ⟨-, -, -, ext0, he0, -⟩ := option_try_set_ok _ _ _ hts
                refine ⟨Nat.le_succ_of_le (Nat.le_refl _),
                  opts_extend_write p i opt' (fun o ho => ?_)⟩
                rw [he0, getOptD_of_optAt ho]
                exact ⟨ext0, rfl⟩
          · cases h
        · cases h
    · split at h
      · cases h
      · split at h
        · cases h
        · cases h

lemma parse_short_chars_ok : ∀ (cs : Str) (p : ArgParser) (stream : List Str)
    (p' : ArgParser) (s' : List Str),
    argparser_parse_short_chars p cs stream = .ok (p', s') →
    s'.length ≤ stream.length ∧ opts_extend p.opts p'.opts := by
  intro cs
  induction cs with
  | nil =>
    intro p stream p' s' h
    cases h
    exact ⟨Nat.le_refl _, opts_extend_refl _⟩
  | cons c cs ih =>
    intro p stream p' s' h
    unfold argparser_parse_short_chars at h
    split at h
    · cases h
    · rename_i i hm
      split at h
      · obtain ⟨hl, hx⟩ := ih _ _ _ _ h
        rw [opts_write_opt] at hx
        refine ⟨hl, opts_extend_trans
          (opts_extend_write p i (option_set_flag { getOptD p i with found := true } true)
            (fun o ho => ?_)) ?_⟩
        · rw [getOptD_of_optAt ho]
          exact ⟨[.bool_val true], rfl⟩
        · rw [opts_write_opt]
          exact hx
      · split at h
        · rename_i v rest
          split at h
          · split at h
            · cases h
            · rename_i opt' hts
              obtain ⟨-, -, -, ext0, he0, -⟩ := option_try_set_ok _ _ _ hts
              split at h
              · split at h
                · cases h
                · rename_i opt'' rest' hg
                  obtain ⟨hlen, ext1, he1⟩ := greedy_consume_ok _ _ _ _ hg
                  obtain ⟨hl, hx⟩ := ih _ _ _ _ h
                  rw [opts_write_opt] at hx
                  refine ⟨Nat.le_succ_of_le (Nat.le_trans hl hlen),
                    opts_extend_trans (opts_extend_write p i opt'' (fun o ho => ?_)) ?_⟩
                  · rw [he1, he0, getOptD_of_optAt ho, List.append_assoc]
                    exact ⟨_, rfl⟩
                  · rw [opts_write_opt]
                    exact hx
              · obtain ⟨hl, hx⟩ := ih _ _ _ _ h
                rw [opts_write_opt] at hx
                refine ⟨Nat.le_succ_of_le hl,
                  opts_extend_trans (opts_extend_write p i opt' (fun o ho => ?_)) ?_⟩
                · rw [he0, getOptD_of_optAt ho]
                  exact ⟨ext0, rfl⟩
                · rw [opts_write_opt]
                  exact hx
          · cases h
        · cases h

lemma parse_short_ok (p : ArgParser) (arg : Str) (stream : List Str)
    (p' : ArgParser) (s' : List Str)
    (h : argparser_parse_short_option p arg stream = .ok (p', s')) :
    s'.length ≤ stream.length ∧ opts_extend p.opts p'.opts := by
  unfold argparser_parse_short_option at h
  split at h
  · split at h
    · cases h
    · rename_i q hq
      cases h
      exact ⟨Nat.le_refl _, parse_equals_ok _ _ _ _ hq⟩
  · exact parse_short_chars_ok _ _ _ _ _ h

lemma parse_stream_ok : ∀ (f : Nat) (p : ArgParser) (b : Bool) (s : List Str)
    (p' : ArgParser) (s' : List Str),
    argparser_parse_stream f p b s = .ok (p', s') →
    opts_extend p.opts p'.opts := by
  intro f
  induction f with
  | zero =>
    intro p b s p' s' h
    cases h
    exact opts_extend_refl _
  | succ f ih =>
    intro p b s p' s' h
    cases s with
    | nil =>
      cases h
      exact opts_extend_refl _
    | cons arg rest =>
      rw [parse_stream_cons] at h
      split at h
      · have hx := ih _ _ _ _ _ h
        rw [opts_append_arg] at hx
        exact hx
      · split at h
        · exact ih _ _ _ _ _ h
        · split at h
          · split at h
            · cases h
            · rename_i q s2 hq
              obtain ⟨-, hx⟩ := parse_long_ok _ _ _ _ _ hq
              exact opts_extend_trans hx (ih _ _ _ _ _ h)
          · split at h
            · split at h
              · have hx := ih _ _ _ _ _ h
                rw [opts_append_arg] at hx
                exact hx
              · split at h
                · cases h
                · rename_i q s2 hq
                  obtain ⟨-, hx⟩ := parse_short_ok _ _ _ _ _ hq
                  exact opts_extend_trans hx (ih _ _ _ _ _ h)
            · split at h
              · rename_i i hm
                split at h
                · cases h
                · rename_i child' rest' hc
                  have hx := ih _ _ _ _ _ h
                  rw [opts_set_cmd, opts_write_cmd] at hx
                  exact hx
              · split at h
                · split at h
                  · split at h <;> cases h
                  · cases h
                · have hx := ih _ _ _ _ _ h
                  rw [opts_append_arg] at hx
                  exact hx

lemma parse_equals_eval (p : ArgParser) (pre name v : Str) (i : Nat) (opt : Opt)
    (hreg : map_get_idx p.optKeys name = some i)
    (hopt : optAt p i = some opt)
    (hname : has_equals name = false)
    (hflag : opt.type ≠ OptionType.FLAG) (hv : v ≠ [])
    (opt' : Opt) (hts : option_try_set { opt with found := true } v = .ok opt') :
    argparser_parse_equals_option p pre (name ++ '=' :: v)
      = .ok (argparser_write_opt p i opt') := by
  unfold argparser_parse_equals_option
  simp only [split_at_equals_append name v hname, hreg, getOptD_of_optAt hopt,
    if_neg hflag, if_neg hv, hts]

lemma parse_long_equals_eval (p : ArgParser) (name v : Str) (stream : List Str)
    (i : Nat) (opt : Opt)
    (hreg : map_get_idx p.optKeys name = some i)
    (hopt : optAt p i = some opt)
    (hname : has_equals name = false)
    (hflag : opt.type ≠ OptionType.FLAG) (hv : v ≠ [])
    (opt' : Opt) (hts : option_try_set { opt with found := true } v = .ok opt') :
    argparser_parse_long_option p (name ++ '=' :: v) stream
      = .ok (argparser_write_opt p i opt', stream) := by
  unfold argparser_parse_long_option
  rw [if_pos (has_equals_append_eq name v)]
  rw [parse_equals_eval p ['-', '-'] name v i opt hreg hopt hname hflag hv opt' hts]

lemma parse_stream_equals_step (f : Nat) (p : ArgParser) (name v : Str)
    (rest : List Str) (i : Nat) (opt : Opt)
    (hreg : map_get_idx p.optKeys name = some i)
    (hopt : optAt p i = some opt)
    (hname : has_equals name = false)
    (hflag : opt.type ≠ OptionType.FLAG) (hv : v ≠ [])
    (opt' : Opt) (hts : option_try_set { opt with found := true } v = .ok opt') :
    argparser_parse_stream (f + 1) p true (('-' :: '-' :: (name ++ '=' :: v)) :: rest)
      = argparser_parse_stream f (argparser_write_opt p i opt') true rest := by
  rw [parse_stream_cons]
  rw [if_neg (by decide : ¬(true = false))]
  rw [if_neg (by simp : ¬(('-' :: '-' :: (name ++ '=' :: v) : Str) = ['-', '-']))]
  rw [if_pos (show List.take 2 ('-' :: '-' :: (name ++ '=' :: v) : Str) = ['-', '-'] by simp)]
  simp only [List.drop_succ_cons, List.drop_zero]
  rw [parse_long_equals_eval p name v rest i opt hreg hopt hname hflag hv opt' hts]

lemma parse_long_space_eval (p : ArgParser) (name v : Str) (rest : List Str)
    (i : Nat) (opt : Opt)
    (hreg : map_get_idx p.optKeys name = some i)
    (hopt : optAt p i = some opt)
    (hname : has_equals name = false)
    (hflag : opt.type ≠ OptionType.FLAG)
    (hvs : value_shaped v = true)
    (opt' : Opt) (hts : option_try_set { opt with found := true } v = .ok opt')
    (hg' : ¬(opt'.greedy = true)) :
    argparser_parse_long_option p name (v :: rest)
      = .ok (argparser_write_opt p i opt', rest) := by
  have hnv : argstream_has_next_value (v :: rest) = true := hvs
  unfold argparser_parse_long_option
  rw [if_neg (by simp [hname] : ¬(has_equals name = true))]
  simp only [hreg, getOptD_of_optAt hopt, if_neg hflag, hnv, hts, if_neg hg', if_true]

/-! Claim theorems. -/

/-- Claim C1, counterexample: the claim says that once a non-flag
character of a short bundle claims the following value-shaped token,
processing of the remaining characters of that bundle stops.  Parsing
`-ab v` where `a` is a non-flag string scalar and `b` a flag refutes this:
`a` claims `v`, yet `b` is still processed afterwards — its flag is set to
`true` and it is marked found, whereas under the claim `b` would have kept
its default `false` and stayed unfound. -/
theorem C1_counterexample :
    (argparser_parse c1p [chars "-ab", chars "v"]).map
      (fun r => (argparser_get_str r (chars "a"), argparser_get_flag r (chars "b"),
                 argparser_found r (chars "b")))
      = .ok (some (chars "v"), some true, some true)
    ∧ (argparser_parse c1p [chars "-ab", chars "v"]).map
        (fun r => argparser_found r (chars "b")) ≠ .ok (some false) := by
  exact ⟨rfl, by decide⟩

/-- Claim C2: with a registered command `push` whose parser has a flag
`force`, parsing `push --force file.txt` makes the root report a matched
command named `push`, sets the push parser's `force` flag, leaves exactly
`file.txt` in the push parser's positional list, and records no token
after the command name on the parent node (its positional list stays
empty): the matched command consumes the rest of the stream. -/
theorem C2_theorem :
    (argparser_parse c2p [chars "push", chars "--force", chars "file.txt"]).map
      (fun r => (argparser_has_cmd r, argparser_get_cmd_name r, r.arguments,
                 (argparser_get_cmd_node r).map
                   (fun c => (argparser_get_flag c (chars "force"), c.arguments))))
      = .ok (true, some (chars "push"), [],
             some (some true, [chars "file.txt"])) := rfl

/-- Claim C3: for a greedy list option `tags`, parsing
`--tags x y z -- w` yields the value list exactly `[x, y, z]` and the
positional list exactly `[w]`: the greedy loop stops before `--` because
`--` fails the value-shaped predicate, and the `--` terminator then
disables option parsing so `w` becomes positional. -/
theorem C3_theorem :
    (argparser_parse c3p
        [chars "--tags", chars "x", chars "y", chars "z", chars "--", chars "w"]).map
      (fun r => (argparser_opt_values r (chars "tags"), r.arguments))
      = .ok (some [.str_val (chars "x"), .str_val (chars "y"), .str_val (chars "z")],
             [chars "w"])
    ∧ value_shaped (chars "--") = false := ⟨rfl, rfl⟩

/-- Claim C4, counterexample: the claim asserts `--name=v` and `--name v`
produce identical option state for every non-empty coercible value text
`v`.  For the string option `s` and `v = -x` (non-empty, and trivially
coercible to a string) the equals form appends `-x`, while the
space-separated form exits fatally with a missing-argument error because
`-x` is not value-shaped. -/
theorem C4_counterexample :
    (argparser_parse c4p [chars "--s=-x"]).map
      (fun r => argparser_opt_values r (chars "s"))
      = .ok (some [.str_val (chars "d"), .str_val (chars "-x")])
    ∧ argparser_parse c4p [chars "--s", chars "-x"]
      = .error (.missingArgument ['-', '-'] (chars "s")) := ⟨rfl, rfl⟩

/-- Claim C6: parsing `-abc val1 val2` against flags `a`, `b` and the
non-flag string scalar `c` sets `a` and `b` to `true`, makes `val1` the
current value of `c`, and appends `val2` to the positional list. -/
theorem C6_theorem :
    (argparser_parse c6p [chars "-abc", chars "val1", chars "val2"]).map
      (fun r => (argparser_get_flag r (chars "a"), argparser_get_flag r (chars "b"),
                 argparser_get_str r (chars "c"), r.arguments))
      = .ok (some true, some true, some (chars "val1"), [chars "val2"]) := rfl

/-- Claim C7, counterexample: the claim says that a bare `help` token
(no registered `help` command, nothing following it) is appended to the
positional list by the catch-all step.  On a fresh parser the code
instead exits fatally (status 1) with the
"the help command requires an argument" diagnostic; in particular the
result is not the parser with `help` appended to its positionals. -/
theorem C7_counterexample :
    argparser_parse (argparser_new none none) [chars "help"]
      = .error .helpRequiresArgument
    ∧ Fatal.helpRequiresArgument.exitCode = 1
    ∧ argparser_parse (argparser_new none none) [chars "help"]
        ≠ .ok (argparser_append_arg (argparser_new none none) (chars "help")) := by
  refine ⟨rfl, rfl, fun hc => ?_⟩
  have h1 : argparser_parse (argparser_new none none) [chars "help"]
      = .error .helpRequiresArgument := rfl
  rw [h1] at hc
  cases hc

/-- Claim C8: coercing the positional arguments parsed from `10 20`
through the integer-list accessor yields exactly `[10, 20]`; coercing the
positionals parsed from `10 x` fails on `x` with the invalid-format error
and exit status 1; and coercing a string whose value overflows `int`
(`2147483648` = INT_MAX + 1) fails with the out-of-range error. -/
theorem C8_theorem :
    (argparser_parse (argparser_new none none) [chars "10", chars "20"]).map
      argparser_get_args_as_ints = .ok (.ok [10, 20])
    ∧ (argparser_parse (argparser_new none none) [chars "10", chars "x"]).map
        argparser_get_args_as_ints = .ok (.error (.invalidFormat (chars "x")))
    ∧ (Fatal.invalidFormat (chars "x")).exitCode = 1
    ∧ try_str_to_int (chars "2147483648") = .error (.outOfRange (chars "2147483648"))
    ∧ (Fatal.outOfRange (chars "2147483648")).exitCode = 1 :=
  ⟨rfl, rfl, rfl, rfl, rfl⟩

/-- Claim C9, counterexample: the claim says a scalar option's `values`
list is non-empty after construction and stays non-empty under every
public operation on the parser.  The scalar `s` does start with its
default, but the public clear operation (`ap_clear_list`) empties the
list, after which the current-value getter has no last element to
return. -/
theorem C9_counterexample :
    argparser_opt_values c9p (chars "s") = some [.str_val (chars "d")]
    ∧ (argparser_clear_list c9p (chars "s")).map
        (fun q => (argparser_opt_values q (chars "s"), argparser_get_str q (chars "s")))
      = .ok (some [], none) := ⟨rfl, rfl⟩

/-- Claim C1 (amended): in short-option bundle handling, each character is
looked up as an option name; a flag character appends `true` and
processing continues to the next character; a non-flag character claims
the following value-shaped stream token and processing likewise continues
with the remaining characters of the bundle (each later non-flag
character claiming the next remaining token), rather than stopping. -/
theorem C1_theorem (p : ArgParser) (c : Char) (cs : Str) (stream : List Str)
    (i : Nat) (opt : Opt)
    (hreg : map_get_idx p.optKeys [c] = some i)
    (hopt : optAt p i = some opt) :
    (opt.type = OptionType.FLAG →
      argparser_parse_short_chars p (c :: cs) stream
        = argparser_parse_short_chars
            (argparser_write_opt p i (option_set_flag { opt with found := true } true))
            cs stream)
    ∧ (∀ (v : Str) (rest : List Str) (opt' : Opt),
        opt.type ≠ OptionType.FLAG → opt.greedy = false →
        value_shaped v = true →
        option_try_set { opt with found := true } v = .ok opt' →
        argparser_parse_short_chars p (c :: cs) (v :: rest)
          = argparser_parse_short_chars (argparser_write_opt p i opt') cs rest) := by
  have hgo : getOptD p i = opt := getOptD_of_optAt hopt
  constructor
  · intro hflag
    conv_lhs => unfold argparser_parse_short_chars
    simp only [hreg, hgo, if_pos hflag]
  · intro v rest opt' hflag hgreedy hvs hts
    have hg' : ¬(opt'.greedy = true) := by
      obtain ⟨-, hg, -⟩ := option_try_set_ok _ _ _ hts
      rw [hg]
      show ¬(opt.greedy = true)
      rw [hgreedy]
      decide
    have hnv : argstream_has_next_value (v :: rest) = true := hvs
    conv_lhs => unfold argparser_parse_short_chars
    simp only [hreg, hgo, if_neg hflag, hnv, if_pos rfl, hts, if_neg hg', if_true]

/-- Claim C1, witness: the non-flag continuation case at a concrete input:
in the bundle `ab` against `c1p` (where `a` is a non-flag string scalar),
`a` claims the token `v` and processing continues with `b`. -/
theorem C1_witness :
    argparser_parse_short_chars c1p ['a', 'b'] [chars "v"]
      = argparser_parse_short_chars
          (argparser_write_opt c1p 0
            (⟨.STRING, true, false, [.str_val (chars "d"), .str_val (chars "v")]⟩ : Opt))
          ['b'] [] :=
  (C1_theorem c1p 'a' ['b'] [chars "v"] 0 (option_new_str (chars "d")) rfl rfl).2
    (chars "v") [] _ (by decide) rfl rfl rfl

/-- Claim C4 (amended): for a registered non-flag, non-greedy option
`name` and a value text `v` that is non-empty, value-shaped and coercible
to the option's type, parsing the single token `--name=v` and parsing the
two tokens `--name v` produce the same resulting parser state (same found
flag, same appended value sequence).  The value-shaped hypothesis is
forced by the counterexample: for a v that is not value-shaped the
space-separated form exits fatally while the equals form succeeds. -/
theorem C4_theorem (p : ArgParser) (name v : Str) (i : Nat) (opt : Opt)
    (hreg : map_get_idx p.optKeys name = some i)
    (hopt : optAt p i = some opt)
    (hname : has_equals name = false) (hname2 : name ≠ [])
    (hflag : opt.type ≠ OptionType.FLAG) (hgreedy : opt.greedy = false)
    (hv : v ≠ []) (hvs : value_shaped v = true)
    (opt' : Opt) (hts : option_try_set { opt with found := true } v = .ok opt') :
    argparser_parse p ['-' :: '-' :: (name ++ '=' :: v)]
      = .ok (argparser_write_opt p i opt')
    ∧ argparser_parse p ['-' :: '-' :: name, v]
      = .ok (argparser_write_opt p i opt') := by
  have hg' : ¬(opt'.greedy = true) := by
    obtain ⟨-, hg, -⟩ := option_try_set_ok _ _ _ hts
    rw [hg]
    show ¬(opt.greedy = true)
    rw [hgreedy]
    decide
  constructor
  · unfold argparser_parse
    rw [show ([('-' :: '-' :: (name ++ '=' :: v))] : List Str).length = 0 + 1 from rfl]
    rw [parse_stream_equals_step 0 p name v [] i opt hreg hopt hname hflag hv opt' hts]
    rfl
  · unfold argparser_parse
    rw [show (['-' :: '-' :: name, v] : List Str).length = 1 + 1 from rfl]
    rw [parse_stream_cons]
    rw [if_neg (by decide : ¬(true = false))]
    rw [if_neg (by simp [hname2] : ¬(('-' :: '-' :: name : Str) = ['-', '-']))]
    rw [if_pos (show List.take 2 ('-' :: '-' :: name : Str) = ['-', '-'] by simp)]
    simp only [List.drop_succ_cons, List.drop_zero]
    rw [parse_long_space_eval p name v [] i opt hreg hopt hname hflag hvs opt' hts hg']
    rfl

/-- Claim C4, witness: the equivalence at a concrete input — for the
string scalar `s` of `c4p`, `--s=w` and `--s w` produce the same state. -/
theorem C4_witness :
    argparser_parse c4p ['-' :: '-' :: (chars "s" ++ '=' :: chars "w")]
      = .ok (argparser_write_opt c4p 0
          (⟨.STRING, true, false, [.str_val (chars "d"), .str_val (chars "w")]⟩ : Opt))
    ∧ argparser_parse c4p ['-' :: '-' :: chars "s", chars "w"]
      = .ok (argparser_write_opt c4p 0
          (⟨.STRING, true, false, [.str_val (chars "d"), .str_val (chars "w")]⟩ : Opt)) :=
  C4_theorem c4p (chars "s") (chars "w") 0 (option_new_str (chars "d"))
    rfl rfl rfl (by decide) (by decide) rfl (by decide) rfl _ rfl

/-- Claim C5: a token whose first character is `-` and which is either a
bare dash or has a digit as its second character is never dispatched to
option handling: the top-level loop appends it to the positional list
(whether option parsing is enabled or disabled), and as the next stream
token it satisfies the value-shaped predicate, so it can be consumed as
an option's value. -/
theorem C5_theorem (f : Nat) (p : ArgParser) (t : Str) (rest : List Str)
    (h1 : t.headD '\x00' = '-')
    (h2 : t.length = 1 ∨ (t.getD 1 '\x00').isDigit = true) :
    argparser_parse_stream (f + 1) p true (t :: rest)
      = argparser_parse_stream f (argparser_append_arg p t) true rest
    ∧ argparser_parse_stream (f + 1) p false (t :: rest)
      = argparser_parse_stream f (argparser_append_arg p t) false rest
    ∧ argstream_has_next_value (t :: rest) = true := by
  cases t with
  | nil => exact absurd h1 (by decide)
  | cons c t' =>
    simp only [List.headD_cons] at h1
    subst h1
    cases t' with
    | nil =>
      refine ⟨?_, ?_, rfl⟩
      · rw [parse_stream_cons]
        rw [if_neg (by decide : ¬(true = false))]
        rw [if_neg (by decide : ¬((['-'] : Str) = ['-', '-']))]
        rw [if_neg (by decide : ¬(List.take 2 (['-'] : Str) = ['-', '-']))]
        rw [if_pos (by decide : List.headD (['-'] : Str) '\x00' = '-')]
        rw [if_pos (Or.inl (by decide : (['-'] : Str).length = 1))]
      · rw [parse_stream_cons]
        rw [if_pos rfl]
    | cons c2 t2 =>
      have hd : c2.isDigit = true := by
        rcases h2 with hl | hr
        · simp at hl
        · simpa using hr
      have hc2 : c2 ≠ '-' := by
        intro he
        subst he
        simp at hd
      refine ⟨?_, ?_, hd⟩
      · rw [parse_stream_cons]
        rw [if_neg (by decide : ¬(true = false))]
        rw [if_neg (by simp [hc2] : ¬(('-' :: c2 :: t2 : Str) = ['-', '-']))]
        rw [if_neg (by simp [hc2] : ¬(List.take 2 ('-' :: c2 :: t2 : Str) = ['-', '-']))]
        rw [if_pos (by simp : List.headD ('-' :: c2 :: t2 : Str) '\x00' = '-')]
        rw [if_pos (Or.inr (by simpa using hd))]
      · rw [parse_stream_cons]
        rw [if_pos rfl]

/-- Claim C5, witness: the token `-5` at a concrete input. -/
theorem C5_witness :
    argparser_parse_stream 1 (argparser_new none none) true [chars "-5"]
      = argparser_parse_stream 0
          (argparser_append_arg (argparser_new none none) (chars "-5")) true []
    ∧ argparser_parse_stream 1 (argparser_new none none) false [chars "-5"]
      = argparser_parse_stream 0
          (argparser_append_arg (argparser_new none none) (chars "-5")) false []
    ∧ argstream_has_next_value [chars "-5"] = true :=
  C5_theorem 0 (argparser_new none none) (chars "-5") [] (by decide) (by decide)

/-- Claim C7 (amended): when option parsing is enabled, the current token
is exactly `help`, it is not a registered command name, and no further
token follows, the code does not append `help` to the positional list: it
exits fatally (status 1) with the "the help command requires an argument"
diagnostic. -/
theorem C7_theorem (p : ArgParser)
    (hcmd : map_get_idx p.cmdKeys (chars "help") = none) :
    argparser_parse p [chars "help"] = .error .helpRequiresArgument := by
  unfold argparser_parse
  rw [show ([chars "help"] : List Str).length = 0 + 1 from rfl, parse_stream_cons]
  rw [if_neg (by decide : ¬(true = false))]
  rw [if_neg (by decide : ¬(chars "help" = ['-', '-']))]
  rw [if_neg (by decide : ¬(List.take 2 (chars "help") = ['-', '-']))]
  rw [if_neg (by decide : ¬(List.headD (chars "help") '\x00' = '-'))]
  rw [hcmd]
  rfl

/-- Claim C7, witness: a fresh parser (no commands) at the token `help`. -/
theorem C7_witness :
    argparser_parse (argparser_new none none) [chars "help"]
      = .error .helpRequiresArgument :=
  C7_theorem (argparser_new none none) rfl

/-- Claim C9 (amended): every scalar constructor produces a non-empty
`values` list (the default at index 0); the non-emptiness is preserved by
every public mutating operation except the clear operation (which the
counterexample shows can empty a scalar), and in particular by parsing,
which only ever appends; and whenever `values` is non-empty the
current-value getters have a last element to return. -/
theorem C9_theorem :
    ((option_new_flag).values ≠ []
      ∧ (∀ d : Str, (option_new_str d).values ≠ [])
      ∧ (∀ n : Int, (option_new_int n).values ≠ [])
      ∧ (∀ d : Str, (option_new_float d).values ≠ []))
    ∧ (∀ (o : Opt) (ops : List OptionOp), o.values ≠ [] → OptionOp.clear ∉ ops →
        (option_apply_list o ops).values ≠ [])
    ∧ (∀ (f : Nat) (p : ArgParser) (b : Bool) (s : List Str)
        (p' : ArgParser) (s' : List Str),
        argparser_parse_stream f p b s = .ok (p', s') →
        ∀ (i : Nat) (o : Opt), optAt p i = some o → o.values ≠ [] →
          ∃ o' : Opt, optAt p' i = some o' ∧ o'.values ≠ [])
    ∧ (∀ o : Opt, o.values ≠ [] → (o.values.getLast?).isSome = true) := by
  refine ⟨⟨?_, ?_, ?_, ?_⟩, ?_, ?_, ?_⟩
  · simp [option_new_flag, option_set_flag, option_append, option_new]
  · intro d
    simp [option_new_str, option_set_str, option_append, option_new]
  · intro n
    simp [option_new_int, option_set_int, option_append, option_new]
  · intro d
    simp [option_new_float, option_set_float, option_append, option_new]
  · intro o ops
    revert o
    induction ops with
    | nil =>
      intro o h _
      exact h
    | cons op ops ih =>
      intro o h hnotin
      have hop : op ≠ OptionOp.clear := fun he => hnotin (he ▸ List.mem_cons_self _ _)
      have h1 : (option_apply o op).values ≠ [] := by
        cases op with
        | setFlag b => simp [option_apply, option_set_flag, option_append]
        | setStr v => simp [option_apply, option_set_str, option_append]
        | setInt n => simp [option_apply, option_set_int, option_append]
        | setFloat r => simp [option_apply, option_set_float, option_append]
        | trySet a =>
          simp only [option_apply]
          cases hts : option_try_set o a with
          | error e => exact h
          | ok o' =>
            obtain ⟨-, -, -, ext, he, -⟩ := option_try_set_ok _ _ _ hts
            rw [he]
            simp [h]
        | clear => exact absurd rfl hop
      exact ih _ h1 (fun hm => hnotin (List.mem_cons_of_mem _ hm))
  · intro f p b s p' s' hps i o ho hne
    obtain ⟨o', ho', ext, he⟩ := parse_stream_ok f p b s p' s' hps i o ho
    refine ⟨o', ho', ?_⟩
    rw [he]
    simp [hne]
  · intro o h
    rw [List.getLast?_eq_getLast_of_ne_nil h]
    rfl

/-- Claim C9, witness: the append-only preservation at a concrete input —
appending a string to the scalar `s` keeps its values non-empty. -/
theorem C9_witness :
    (option_apply_list (option_new_str (chars "d")) [OptionOp.setStr (chars "x")]).values
      ≠ [] :=
  C9_theorem.2.1 (option_new_str (chars "d")) [OptionOp.setStr (chars "x")]
    (by decide) (by decide)

/-- Claim C10: for a registered greedy (non-flag) option `name`, the
equals form `--name=v` appends exactly the one embedded value and hands
the remaining stream tokens back to the top-level loop untouched — the
equals handler never consumes following tokens, even value-shaped ones,
so greedy consumption happens only in the space-separated form. -/
theorem C10_theorem (f : Nat) (p : ArgParser) (name v : Str) (rest : List Str)
    (i : Nat) (opt : Opt)
    (hreg : map_get_idx p.optKeys name = some i)
    (hopt : optAt p i = some opt)
    (hgreedy : opt.greedy = true)
    (hname : has_equals name = false)
    (hflag : opt.type ≠ OptionType.FLAG) (hv : v ≠ [])
    (opt' : Opt) (hts : option_try_set { opt with found := true } v = .ok opt') :
    argparser_parse_stream (f + 1) p true (('-' :: '-' :: (name ++ '=' :: v)) :: rest)
      = argparser_parse_stream f (argparser_write_opt p i opt') true rest
    ∧ ∃ w, opt'.values = opt.values ++ [w] := by
  refine ⟨parse_stream_equals_step f p name v rest i opt hreg hopt hname hflag hv opt' hts, ?_⟩
  obtain ⟨-, -, -, ext, he, hw⟩ := option_try_set_ok _ _ _ hts
  obtain ⟨w, hwe⟩ := hw hflag
  exact ⟨w, by rw [he, hwe]⟩

/-- Claim C10, witness: the greedy string list `tags` of `c3p` with
`--tags=a` followed by the value-shaped token `b`: the step hands `b`
back to the top-level loop and the option gains exactly one value. -/
theorem C10_witness :
    (argparser_parse_stream (0 + 1) c3p true
        (('-' :: '-' :: (chars "tags" ++ '=' :: chars "a")) :: [chars "b"])
      = argparser_parse_stream 0
          (argparser_write_opt c3p 0 (⟨.STRING, true, true, [.str_val (chars "a")]⟩ : Opt))
          true [chars "b"])
    ∧ ∃ w, (⟨.STRING, true, true, [.str_val (chars "a")]⟩ : Opt).values
        = (option_new_str_list true).values ++ [w] :=
  C10_theorem 0 c3p (chars "tags") (chars "a") [chars "b"] 0 (option_new_str_list true)
    rfl rfl rfl rfl (by decide) (by decide) _ rfl

end Clio
